import Mathlib

/-!
# Verification of the redis-action scripts

A shallow embedding of the Python sources under `src/` (a port of the
"Redis in Action" examples driving a Redis store), together with proofs
about the embedded operations.

Modelling conventions, used throughout:

* The Redis keyspace is split by value type into separate association
  lists (`List (String × _)`), one per Redis data type actually used
  (strings/markers, sorted sets, sets, hashes, lists).  No key of the
  source programs is used at two different types, so this split is
  faithful.
* A sorted set ("zset") is an association list from member to score;
  rank-based range queries sort it by (score, member), matching Redis's
  score-then-lexicographic ordering.
* Timestamps (`time.time()`) and scores are modelled as `Int` and are
  passed explicitly to every function that reads the clock.
* The repository targets redis-py 2.x, whose positional conventions are
  `zadd(name, value, score)` and `zincrby(name, value, amount=1)` —
  the *member* comes before the score/amount.  The embedding follows
  those signatures; this matters for `article_vote`.
* Fallible calls (Python `TypeError`s on `None`, Redis `RENAME` on a
  missing key) are modelled with `Except String`.
-/

namespace RedisAction

/-- Leftmost-binding lookup in an association list; models reading one
key of a Redis keyspace (or one field/member of a hash/zset). -/
def alookup (k : String) : List (String × α) → Option α
  | [] => none
  | (k', v) :: l => if k' = k then some v else alookup k l

/-- Set key `k` to `v`, overwriting an existing binding in place. -/
def aset (k : String) (v : α) : List (String × α) → List (String × α)
  | [] => [(k, v)]
  | (k', v') :: l => if k' = k then (k, v) :: l else (k', v') :: aset k v l

/-- Delete every binding of key `k`; models `DEL` / `HDEL` / `ZREM` of
one key/field/member. -/
def aremove (k : String) : List (String × α) → List (String × α)
  | [] => []
  | (k', v') :: l => if k' = k then aremove k l else (k', v') :: aremove k l

/-- The member part of an association list (`HKEYS` / zset members). -/
def keysOf (l : List (String × α)) : List String := l.map Prod.fst

/-! ## Sorted-set primitives

A zset value is `List (String × Int)`: member ↦ score. -/

abbrev Zset := List (String × Int)

/-- `ZSCORE` inside one zset value. -/
def zscoreL (zs : Zset) (member : String) : Option Int := alookup member zs

/-- `ZADD` inside one zset value (later insert overwrites the score). -/
def zaddL (zs : Zset) (member : String) (score : Int) : Zset := aset member score zs

/-- `ZINCRBY` inside one zset value: a missing member is treated as
having score 0 and is created. -/
def zincrbyL (zs : Zset) (member : String) (amount : Int) : Zset :=
  match alookup member zs with
  | none => aset member amount zs
  | some s => aset member (s + amount) zs

/-- `ZREM` of one member inside one zset value. -/
def zremL (zs : Zset) (member : String) : Zset := aremove member zs

/-- `ZSCORE key member` over a keyspace of zsets (nil on a missing key). -/
def zscoreK (ks : List (String × Zset)) (key member : String) : Option Int :=
  match alookup key ks with
  | none => none
  | some zs => zscoreL zs member

/-- `ZADD key member score` over a keyspace of zsets (creates the key). -/
def zaddK (ks : List (String × Zset)) (key member : String) (score : Int) :
    List (String × Zset) :=
  match alookup key ks with
  | none => aset key [(member, score)] ks
  | some zs => aset key (zaddL zs member score) ks

/-- `ZINCRBY key member amount` over a keyspace of zsets (creates the key). -/
def zincrbyK (ks : List (String × Zset)) (key member : String) (amount : Int) :
    List (String × Zset) :=
  match alookup key ks with
  | none => aset key [(member, amount)] ks
  | some zs => aset key (zincrbyL zs member amount) ks

/-! ### Rank order

Redis ranks zset entries by score, breaking ties by the member string
(byte-wise); `zrange key 0 (n-1)` returns the `n` smallest entries in
that order.  We realize it with an insertion sort by (score, member). -/

/-- Strict lexicographic order on character lists (byte-wise member
comparison of Redis, restricted to the strings the scripts use). -/
def charsLt : List Char → List Char → Bool
  | [], [] => false
  | [], _ :: _ => true
  | _ :: _, [] => false
  | a :: as, b :: bs => if a < b then true else if b < a then false else charsLt as bs

/-- Member comparison used by zset rank order. -/
def strLtB (a b : String) : Bool := charsLt a.data b.data

/-- Zset rank order: by score, ties broken by member. -/
def zentryLe (a b : String × Int) : Bool :=
  if a.2 < b.2 then true
  else if b.2 < a.2 then false
  else strLtB a.1 b.1 || a.1 == b.1

/-- Insert into a list sorted by `le`. -/
def insertBy (le : α → α → Bool) (x : α) : List α → List α
  | [] => [x]
  | y :: ys => if le x y then x :: y :: ys else y :: insertBy le x ys

/-- Insertion sort by `le`. -/
def sortBy (le : α → α → Bool) : List α → List α
  | [] => []
  | x :: xs => insertBy le x (sortBy le xs)

/-- `ZRANGE key 0 (n-1)`: the `n` lowest-ranked entries of a zset value. -/
def zrangeLow (zs : Zset) (n : Nat) : Zset := (sortBy zentryLe zs).take n

/-! ## Set and hash primitives -/

/-- `SISMEMBER key member` over a keyspace of sets. -/
def sismemberK (ks : List (String × List String)) (key member : String) : Bool :=
  match alookup key ks with
  | none => false
  | some s => s.contains member

/-- `SADD key member` over a keyspace of sets (creates the key). -/
def saddK (ks : List (String × List String)) (key member : String) :
    List (String × List String) :=
  match alookup key ks with
  | none => aset key [member] ks
  | some s => if s.contains member then ks else aset key (member :: s) ks

/-- A hash field value: Redis stores strings, which `HINCRBY` reinterprets
as integers; fields the scripts treat numerically are `int`, the rest `str`. -/
inductive HVal where
  | str (s : String)
  | int (n : Int)
deriving DecidableEq, Repr

abbrev Hash := List (String × HVal)

/-- `HINCRBY key field amount` on one hash value: a missing field starts
from 0; a non-integer field is a Redis error (`none`). -/
def hincrbyL (h : Hash) (field : String) (amount : Int) : Option Hash :=
  match alookup field h with
  | none => some (aset field (.int amount) h)
  | some (.int n) => some (aset field (.int (n + amount)) h)
  | some (.str _) => none

/-- `HINCRBY` over a keyspace of hashes (creates the key). -/
def hincrbyK (ks : List (String × Hash)) (key field : String) (amount : Int) :
    Option (List (String × Hash)) :=
  match alookup key ks with
  | none => some (aset key [(field, .int amount)] ks)
  | some h =>
    match hincrbyL h field amount with
    | none => none
    | some h' => some (aset key h' ks)

/-- `HGET key field` over a keyspace of hashes. -/
def hgetK (ks : List (String × Hash)) (key field : String) : Option HVal :=
  match alookup key ks with
  | none => none
  | some h => alookup field h

/-- `Except.isOk` spelled out (avoids depending on library naming). -/
def isOkE : Except ε α → Bool
  | .ok _ => true
  | .error _ => false

/-! ## `src/vote/vote_site.py` -/

/-- 一周换算的秒数 (`ONE_WEEK_IN_SCORES = 7 * 86400`). -/
def ONE_WEEK_IN_SCORES : Int := 7 * 86400

/-- 每一票对应的评分数 (`VOTE_SCORE = 432`). -/
def VOTE_SCORE : Int := 432

/-- Python `article.partition(':')[-1]`: the text after the *first* `':'`,
and `""` when there is none. -/
def afterFirstColon (s : String) : String :=
  match s.data.dropWhile (fun c => c != ':') with
  | [] => ""
  | _ :: rest => ⟨rest⟩

/-- The slice of the Redis keyspace touched by `vote_site.py`:
the `article:` id counter (a string key used with `INCR`), the zsets
(`time:`, `score:`, and — due to the bug proved below — `score:<id>`),
the `voted:<id>` sets together with the TTLs `EXPIRE` puts on them, and
the `article:<id>` hashes. -/
structure VoteStore where
  articleCounter : Nat
  zsets : List (String × Zset)
  sets : List (String × List String)
  ttls : List (String × Int)
  hashes : List (String × Hash)
deriving DecidableEq, Repr

/-- The Python `TypeError` raised by `posted + ONE_WEEK_IN_SCORES` when
`conn.zscore('time:', article)` returned `None`. -/
def voteTypeError : String :=
  "TypeError: unsupported operand type(s) for +: NoneType and int"

/-- `article_vote(conn, user, article)` (vote_site.py lines 14–59), on the
conflict-free path: one pass of the WATCH/MULTI/EXEC body.  `now` is the
`time.time()` read.  The WATCH retry control flow is modelled separately
by `voteRetryLoop`.  Note the redis-py 2.x call
`pipeline.zincrby('score:' + article_id, VOTE_SCORE)`:
its key is `score:<id>`, its *member* is `str(VOTE_SCORE) = "432"` and its
increment is the default `1`. -/
def article_vote (s : VoteStore) (user article : String) (now : Int) :
    Except String VoteStore :=
  match zscoreK s.zsets "time:" article with
  | none => .error voteTypeError
  | some posted =>
    let expired := posted + ONE_WEEK_IN_SCORES
    let articleId := afterFirstColon article
    let voted := "voted:" ++ articleId
    if now < expired then
      if sismemberK s.sets voted user then
        -- already voted: `pipeline.unwatch(); return` — no write happens
        .ok s
      else
        match hincrbyK s.hashes article "votes" 1 with
        | none => .error "hincrby: hash value is not an integer"
        | some hashes' =>
          .ok { s with
                sets := saddK s.sets voted user,
                ttls := aset voted (expired - now) s.ttls,
                zsets := zincrbyK s.zsets ("score:" ++ articleId)
                  (toString VOTE_SCORE) 1,
                hashes := hashes' }
    else
      -- voting window over: the while loop is never entered
      .ok s

/-- `post_article(conn, user, title, link)` (vote_site.py lines 62–98);
`now` is the `time.time()` read.  Returns the new article id and the
updated store. -/
def post_article (s : VoteStore) (user title link : String) (now : Int) :
    String × VoteStore :=
  let articleId := toString (s.articleCounter + 1)
  let voted := "voted:" ++ articleId
  let article := "article:" ++ articleId
  (articleId,
   { articleCounter := s.articleCounter + 1,
     sets := saddK s.sets voted user,
     ttls := aset voted ONE_WEEK_IN_SCORES s.ttls,
     hashes := aset article
       [("title", .str title), ("link", .str link), ("poster", .str user),
        ("time", .int now), ("votes", .int 1)] s.hashes,
     zsets := zaddK (zaddK s.zsets "score:" article (now + VOTE_SCORE))
       "time:" article now })

/-! ### The WATCH retry loop of `article_vote` (lines 36–59)

`article_vote` reads `now = time.time()` once before its `while` loop and
re-reads it each time `pipeline.execute()` raises `WatchError`; the loop
guard is `now < expired`.  `clock k` is the value the `k`-th read of
`time.time()` returns and `conflict k` tells whether the `k`-th
WATCH/MULTI/EXEC attempt is invalidated by a concurrent writer.  The
result records at which attempt the vote committed, or at which clock
read the loop gave the vote up. -/

inductive VoteOutcome where
  | committed (k : Nat)
  | dropped (k : Nat)
  | fuelOut
deriving DecidableEq, Repr

/-- One execution of the retry loop of `article_vote`, starting at the
`k`-th clock read, with enough `fuel` iterations allowed. -/
def voteRetryLoop (expired : Int) (clock : Nat → Int) (conflict : Nat → Bool) :
    Nat → Nat → VoteOutcome
  | 0, _ => .fuelOut
  | fuel + 1, k =>
    if clock k < expired then
      if conflict k then voteRetryLoop expired clock conflict fuel (k + 1)
      else .committed k
    else .dropped k

/-! ## `src/fake-web-retailer/login_cookie.py` — session eviction

`clean_sessions` (lines 54–87) and `clean_full_session` (lines 111–134)
loop while `not QUIT`; each iteration either sleeps (when the `recent:`
zset holds at most `LIMIT` tokens) or evicts a batch of at most 100 of
the oldest tokens together with their dependent records.  The mutable
global `LIMIT` is passed as the `limit` parameter. -/

/-- The slice of the keyspace the session reapers touch: the `recent:`
recency zset, the `login:` hash, the per-token `viewed:<token>` zsets and
the per-token `cart:<token>` hashes. -/
structure SessionStore where
  recent : List (String × Int)
  login : List (String × String)
  viewed : List (String × Zset)
  cart : List (String × List (String × String))
deriving DecidableEq, Repr

/-- The batch an eviction iteration removes:
`tokens = conn.zrange('recent:', 0, min(size - limit, 100) - 1)`. -/
def cleanTokens (limit : Nat) (s : SessionStore) : List String :=
  keysOf (zrangeLow s.recent (min (s.recent.length - limit) 100))

/-- The eviction body of one `clean_sessions` iteration (lines 74–87):
delete each token's `viewed:<token>` key, its `login:` hash entry and its
`recent:` entry. -/
def clean_sessions_body (limit : Nat) (s : SessionStore) : SessionStore :=
  let tokens := cleanTokens limit s
  { recent := tokens.foldl zremL s.recent,
    login := tokens.foldl (fun h t => aremove t h) s.login,
    viewed := tokens.foldl (fun v t => aremove ("viewed:" ++ t) v) s.viewed,
    cart := s.cart }

/-- The eviction body of one `clean_full_session` iteration (lines
124–134): as `clean_sessions_body`, and additionally delete each token's
`cart:<token>` hash. -/
def clean_full_session_body (limit : Nat) (s : SessionStore) : SessionStore :=
  let tokens := cleanTokens limit s
  { recent := tokens.foldl zremL s.recent,
    login := tokens.foldl (fun h t => aremove t h) s.login,
    viewed := tokens.foldl (fun v t => aremove ("viewed:" ++ t) v) s.viewed,
    cart := tokens.foldl (fun c t => aremove ("cart:" ++ t) c) s.cart }

/-- Run `clean_sessions` until the size check passes (quiescence), with
`fuel` bounding the number of iterations; also returns every evicted
token.  A no-op iteration (`size <= limit`) only sleeps, so it is the
fixed point at which we stop. -/
def clean_sessions_run (limit : Nat) : Nat → SessionStore → SessionStore × List String
  | 0, s => (s, [])
  | fuel + 1, s =>
    if s.recent.length ≤ limit then (s, [])
    else
      let r := clean_sessions_run limit fuel (clean_sessions_body limit s)
      (r.1, cleanTokens limit s ++ r.2)

/-- Run `clean_full_session` to quiescence; see `clean_sessions_run`. -/
def clean_full_session_run (limit : Nat) : Nat → SessionStore → SessionStore × List String
  | 0, s => (s, [])
  | fuel + 1, s =>
    if s.recent.length ≤ limit then (s, [])
    else
      let r := clean_full_session_run limit fuel (clean_full_session_body limit s)
      (r.1, cleanTokens limit s ++ r.2)

/-- Well-formedness of a Redis zset: one entry per member. -/
def zsetWF (zs : Zset) : Prop := (keysOf zs).Nodup

/-! ## `src/fake-web-retailer/login_cookie.py` — row cache scheduler -/

/-- The slice of the keyspace `schedule_row_cache`/`cache_rows` touch:
the `schedule:` due-time zset, the `delay:` re-fire-delay zset, and the
cached `inventory:<id>` string keys. -/
structure CacheStore where
  schedule : Zset
  delay : Zset
  inventory : List (String × String)
deriving DecidableEq, Repr

/-- The Python `TypeError` raised by `delay <= 0` when
`conn.zscore('delay:', row_id)` returned `None`. -/
def cacheTypeError : String :=
  "TypeError: <= not supported between instances of NoneType and int"

/-- The string `json.dumps(Inventory.get(row_id).to_dict())` cached under
`inventory:<row_id>`.  `to_dict` embeds a fresh `time.time()`, modelled
as the cycle's `now`; the exact JSON text is irrelevant to every property
proved here, only that a write of it happens or does not. -/
def invJson (rowId : String) (cached : Int) : String :=
  "json.dumps(Inventory.get(" ++ rowId ++ ").to_dict()) at " ++ toString cached

/-- `schedule_row_cache(conn, row_id, delay)` (lines 267–281); `now` is
the `time.time()` read. -/
def schedule_row_cache (s : CacheStore) (rowId : String) (delay now : Int) :
    CacheStore :=
  { s with delay := zaddL s.delay rowId delay,
           schedule := zaddL s.schedule rowId now }

/-- One iteration of the `cache_rows(conn)` daemon loop (lines 284–319);
`now` is the `time.time()` read of the iteration.
`conn.zrange('schedule:', 0, 0, withscores=True)` is the lowest-ranked
schedule entry; an empty or not-yet-due schedule just sleeps. -/
def cache_rows_step (s : CacheStore) (now : Int) : Except String CacheStore :=
  match (sortBy zentryLe s.schedule).head? with
  | none => .ok s
  | some (rowId, due) =>
    if now < due then .ok s
    else
      match zscoreL s.delay rowId with
      | none => .error cacheTypeError
      | some delay =>
        if delay ≤ 0 then
          .ok { delay := zremL s.delay rowId,
                schedule := zremL s.schedule rowId,
                inventory := aremove ("inventory:" ++ rowId) s.inventory }
        else
          .ok { s with
                schedule := zaddL s.schedule rowId (now + delay),
                inventory := aset ("inventory:" ++ rowId) (invJson rowId now)
                  s.inventory }

/-- Run `cache_rows` cycles at the given sequence of clock readings. -/
def cache_rows_run : List Int → CacheStore → Except String CacheStore
  | [], s => .ok s
  | now :: nows, s =>
    match cache_rows_step s now with
    | .error e => .error e
    | .ok s' => cache_rows_run nows s'

/-- The implicit precondition of `cache_rows`: every scheduled row id has
a `delay:` entry. -/
def schedCovered (s : CacheStore) : Prop :=
  ∀ k, k ∈ keysOf s.schedule → (zscoreL s.delay k).isSome

/-! ## `src/log/log.py` -/

/-- Lowercase a string character-wise (Python `str.lower()` on the ASCII
severity names used here). -/
def strLower (s : String) : String := ⟨s.data.map Char.toLower⟩

/-- `str(SEVERITY.get(severity, severity)).lower()` for a string
severity: every string key of `SEVERITY` maps to itself and a missing
key defaults to itself, so the normalization is just `.lower()`. -/
def sevName (severity : String) : String := strLower severity

/-- `destination = 'common:%s:%s' % (name, severity)` of `log_common`. -/
def log_destination (name severity : String) : String :=
  "common:" ++ name ++ ":" ++ sevName severity

/-- The slice of the keyspace `log.py` touches: the hour start markers
(string keys; the ISO-8601 hour strings compared with `<` are modelled
as `Nat` hour indices, whose order agrees with the lexicographic order
of the fixed-width ISO text), the `common:...` count zsets, and the
`recent:...` capped lists. -/
structure LogStore where
  strings : List (String × Nat)
  zsets : List (String × Zset)
  lists : List (String × List String)
deriving DecidableEq, Repr

/-- `log_recent(conn, name, message, severity, pipe)` (log.py lines
23–49): `LPUSH` the timestamped message, `LTRIM` to the newest 100.
`asc` is the `time.asctime()` read. -/
def log_recent (s : LogStore) (name message severity asc : String) : LogStore :=
  let dest := "recent:" ++ name ++ ":" ++ sevName severity
  let msgs := ((asc ++ " " ++ message) :: (alookup dest s.lists).getD []).take 100
  { s with lists := aset dest msgs s.lists }

/-- `log_common(conn, name, message, severity, timeout)` (log.py lines
52–104) on the conflict-free path: one successful pass of the
WATCH/MULTI/EXEC body.  `hourNow` is the current wall-clock hour
(`datetime(*now[:4]).isoformat()`); `asc` is `time.asctime()` for the
`log_recent` side effect.  `RENAME` of a missing source key is a Redis
error. -/
def log_common (s : LogStore) (name message severity asc : String)
    (hourNow : Nat) : Except String LogStore :=
  let dest := log_destination name severity
  let startKey := dest ++ ":start"
  match alookup startKey s.strings with
  | none =>
    .ok (log_recent
      { s with strings := aset startKey hourNow s.strings,
               zsets := zincrbyK s.zsets dest message 1 }
      name message severity asc)
  | some existing =>
    if existing < hourNow then
      match alookup dest s.zsets with
      | none => .error "RENAME: no such key"
      | some counts =>
        .ok (log_recent
          { s with
            strings := aset startKey hourNow
              (aset (dest ++ ":pstart") existing
                (aremove startKey s.strings)),
            zsets := zincrbyK
              (aset (dest ++ ":last") counts (aremove dest s.zsets))
              dest message 1 }
          name message severity asc)
    else
      .ok (log_recent
        { s with zsets := zincrbyK s.zsets dest message 1 }
        name message severity asc)

/-- `n`-fold repetition of `log_common` with the same arguments within
one wall-clock hour. -/
def log_common_iter (name message severity asc : String) (hourNow : Nat) :
    Nat → LogStore → Except String LogStore
  | 0, s => .ok s
  | n + 1, s =>
    match log_common s name message severity asc hourNow with
    | .error e => .error e
    | .ok s' => log_common_iter name message severity asc hourNow n s'

/-! ## The WATCH/MULTI/EXEC optimistic protocol (used by `article_vote`
and `log_common`)

Redis invalidates an open `WATCH` whenever the watched key is modified,
whatever value is written; this is the standard version-stamp model: a
cell holding the watched key's value plus a counter bumped by every
write.  An attempt snapshots the cell at `WATCH` time, the environment
performs an arbitrary sequence of interleaved writes, and `EXEC` applies
the computed result only if the version is unchanged. -/

structure WatchedCell (α : Type) where
  value : α
  version : Nat
deriving DecidableEq, Repr

/-- The interleaved writes of concurrent clients to the watched key,
applied in order; every write bumps the version. -/
def envWrites (c : WatchedCell α) : List α → WatchedCell α
  | [] => c
  | w :: ws => envWrites ⟨w, c.version + 1⟩ ws

/-- One optimistic attempt: read the snapshot at `WATCH` time, let the
environment writes `ws` happen, and commit `readCompute snapshot` only
if the watched cell is unmodified (`EXEC` not invalidated).  Both
`article_vote` (watching `voted:<id>`) and `log_common` (watching the
`:start` marker) are instances, with `readCompute` their MULTI bodies. -/
def optimistic_attempt (readCompute : α → β) (c : WatchedCell α)
    (ws : List α) : Option β :=
  let snapshot := c.value
  let c' := envWrites c ws
  if c'.version = c.version then some (readCompute snapshot) else none

/-! ## Result views and concrete scenario states

Views package the observations a scenario theorem makes of a result
state, so that the theorem and its witness are binder-free; concrete
stores replay the scenarios of the spec on explicit inputs. -/

/-- The message's count in the current-hour bucket after `n` calls of
`log_common` (or `none` when a call failed). -/
def logCountsAfter (s : LogStore) (name message severity asc : String)
    (hourNow n : Nat) : Option (Option Int) :=
  match log_common_iter name message severity asc hourNow n s with
  | .error _ => none
  | .ok s' => some (zscoreK s'.zsets (log_destination name severity) message)

/-- After one `log_common` call at hour `h` and another at hour `h'`:
the archived `:last` bucket, the `:pstart` marker, the `:start` marker
and the current bucket (or `none` when a call failed). -/
def logRolloverView (s : LogStore) (name message severity asc : String)
    (h h' : Nat) : Option (Option Zset × Option Nat × Option Nat × Option Zset) :=
  match log_common s name message severity asc h with
  | .error _ => none
  | .ok s1 =>
    match log_common s1 name message severity asc h' with
    | .error _ => none
    | .ok s2 =>
      some (alookup (log_destination name severity ++ ":last") s2.zsets,
        alookup (log_destination name severity ++ ":pstart") s2.strings,
        alookup (log_destination name severity ++ ":start") s2.strings,
        alookup (log_destination name severity) s2.zsets)

/-- The empty keyspace of the voting site. -/
def c1Start : VoteStore :=
  { articleCounter := 0, zsets := [], sets := [], ttls := [], hashes := [] }

/-- The spec scenario: publish article A at `now = 0`
(`post_article(conn, 'username', 'A title', <link>)` gives article id 1). -/
def c1AfterPost : VoteStore :=
  (post_article c1Start "username" "A title" "http://example.com" 0).2

/-- …then one vote from a new user at `now = 10`:
`article_vote(conn, 'other_user', 'article:1')`. -/
def c1AfterVote : Option VoteStore :=
  (article_vote c1AfterPost "other_user" "article:1" 10).toOption

/-- A one-session store for replaying the reapers concretely. -/
def c2Store : SessionStore :=
  { recent := [("a", 1)], login := [("a", "u")],
    viewed := [("viewed:a", [])], cart := [("cart:a", [])] }

/-! # Theorems

First the generic helper lemmas about the store primitives, then one
main theorem per claim (with its witness or counterexample). -/

theorem alookup_aset_self (k : String) (v : α) (l : List (String × α)) :
    alookup k (aset k v l) = some v := by
  induction l with
  | nil => simp [aset, alookup]
  | cons p l ih =>
    by_cases h : p.1 = k
    · simp [aset, alookup, h]
    · simp [aset, alookup, h, ih]

theorem alookup_aset_ne (h : k' ≠ k) (v : α) (l : List (String × α)) :
    alookup k (aset k' v l) = alookup k l := by
  induction l with
  | nil => simp [aset, alookup, h]
  | cons p l ih =>
    by_cases hp : p.1 = k'
    · simp [aset, alookup, hp, h]
    · simp [aset, alookup, hp, ih]

theorem alookup_aremove_self (k : String) (l : List (String × α)) :
    alookup k (aremove k l) = none := by
  induction l with
  | nil => simp [aremove, alookup]
  | cons p l ih =>
    by_cases h : p.1 = k
    · simp [aremove, h, ih]
    · simp [aremove, alookup, h, ih]

theorem alookup_aremove_ne {k k' : String} (h : k ≠ k') (l : List (String × α)) :
    alookup k (aremove k' l) = alookup k l := by
  induction l with
  | nil => simp [aremove, alookup]
  | cons p l ih =>
    obtain ⟨a, b⟩ := p
    by_cases hp : a = k'
    · have h1 : a ≠ k := fun hc => h (by rw [← hc, hp])
      simp only [aremove, alookup, if_pos hp, if_neg h1, ih]
    · simp only [aremove, alookup, if_neg hp]
      by_cases ha : a = k
      · simp only [if_pos ha]
      · simp only [if_neg ha, ih]

theorem alookup_aremove_none {k : String} {l : List (String × α)}
    (h : alookup k l = none) (k' : String) :
    alookup k (aremove k' l) = none := by
  by_cases he : k = k'
  · subst he; exact alookup_aremove_self k l
  · rw [alookup_aremove_ne he]; exact h

theorem aremove_sublist (k : String) (l : List (String × α)) :
    (aremove k l).Sublist l := by
  induction l with
  | nil => simp [aremove]
  | cons p l ih =>
    obtain ⟨a, b⟩ := p
    by_cases h : a = k
    · simp only [aremove, if_pos h]
      exact ih.cons (a, b)
    · simp only [aremove, if_neg h]
      exact ih.cons₂ (a, b)

theorem mem_keysOf_aremove {k' k : String} {l : List (String × α)} :
    k' ∈ keysOf (aremove k l) ↔ k' ∈ keysOf l ∧ k' ≠ k := by
  induction l with
  | nil => simp [aremove, keysOf]
  | cons p l ih =>
    obtain ⟨a, b⟩ := p
    simp only [keysOf, List.map_cons, List.mem_cons] at ih ⊢
    by_cases h : a = k
    · subst h
      rw [aremove, if_pos rfl, ih]
      constructor
      · exact fun ⟨hm, hne⟩ => ⟨Or.inr hm, hne⟩
      · rintro ⟨he | hm, hne⟩
        · exact absurd he hne
        · exact ⟨hm, hne⟩
    · rw [aremove]
      simp only [if_neg h, List.map_cons, List.mem_cons, ih]
      constructor
      · rintro (he | ⟨hm, hne⟩)
        · subst he
          exact ⟨Or.inl rfl, fun hc => h hc⟩
        · exact ⟨Or.inr hm, hne⟩
      · rintro ⟨he | hm, hne⟩
        · exact Or.inl he
        · exact Or.inr ⟨hm, hne⟩

theorem mem_keysOf_aset {k' k : String} {v : α} {l : List (String × α)} :
    k' ∈ keysOf (aset k v l) ↔ k' = k ∨ k' ∈ keysOf l := by
  induction l with
  | nil => simp [aset, keysOf]
  | cons p l ih =>
    obtain ⟨a, b⟩ := p
    simp only [keysOf, List.map_cons, List.mem_cons] at ih ⊢
    by_cases h : a = k
    · subst h
      rw [aset, if_pos rfl]
      simp only [List.map_cons, List.mem_cons]
      tauto
    · rw [aset, if_neg h]
      simp only [List.map_cons, List.mem_cons, ih]
      tauto

theorem alookup_none_iff_not_mem {k : String} {l : List (String × α)} :
    alookup k l = none ↔ k ∉ keysOf l := by
  induction l with
  | nil => simp [alookup, keysOf]
  | cons p l ih =>
    obtain ⟨a, b⟩ := p
    simp only [keysOf, List.map_cons, List.mem_cons] at ih ⊢
    by_cases h : a = k
    · subst h
      simp [alookup]
    · rw [alookup]
      simp only [if_neg h, ih]
      constructor
      · rintro hn (he | hm)
        · exact h he.symm
        · exact hn hm
      · intro hn hm
        exact hn (Or.inr hm)

theorem aremove_of_not_mem {k : String} {l : List (String × α)}
    (h : k ∉ keysOf l) : aremove k l = l := by
  induction l with
  | nil => rfl
  | cons p l ih =>
    obtain ⟨a, b⟩ := p
    rw [keysOf, List.map_cons, List.mem_cons] at h
    push_neg at h
    have hp : a ≠ k := fun hc => h.1 hc.symm
    rw [keysOf] at ih
    rw [aremove, if_neg hp, ih h.2]

theorem length_aremove_of_mem {k : String} {l : List (String × α)}
    (hnd : (keysOf l).Nodup) (hm : k ∈ keysOf l) :
    (aremove k l).length + 1 = l.length := by
  induction l with
  | nil => simp [keysOf] at hm
  | cons p l ih =>
    obtain ⟨a, b⟩ := p
    rw [keysOf, List.map_cons] at hnd hm
    rw [List.nodup_cons] at hnd
    rw [List.mem_cons] at hm
    by_cases h : a = k
    · subst h
      rw [aremove, if_pos rfl, aremove_of_not_mem hnd.1]
      simp
    · rcases hm with he | hm
      · exact absurd he.symm h
      · rw [aremove, if_neg h]
        simp only [List.length_cons]
        rw [ih hnd.2 hm]

/-! ### Sorting and permutations -/

theorem insertBy_perm (le : α → α → Bool) (x : α) (l : List α) :
    (insertBy le x l).Perm (x :: l) := by
  induction l with
  | nil => exact List.Perm.refl _
  | cons y ys ih =>
    by_cases h : le x y
    · rw [insertBy, if_pos h]
    · rw [insertBy, if_neg h]
      exact (ih.cons y).trans (List.Perm.swap x y ys)

theorem sortBy_perm (le : α → α → Bool) (l : List α) :
    (sortBy le l).Perm l := by
  induction l with
  | nil => exact List.Perm.refl _
  | cons x xs ih =>
    exact (insertBy_perm le x (sortBy le xs)).trans (ih.cons x)

theorem head?_sortBy_mem {le : α → α → Bool} {l : List α} {x : α}
    (h : (sortBy le l).head? = some x) : x ∈ l := by
  have hx : x ∈ sortBy le l := by
    cases hs : sortBy le l with
    | nil => rw [hs] at h; exact absurd h (by simp)
    | cons a t =>
      rw [hs] at h
      rw [List.head?_cons] at h
      injection h with h
      rw [← h]
      exact List.mem_cons_self _ _
  exact (sortBy_perm le l).mem_iff.mp hx

/-! ### Keyspace-level zset lemmas -/

theorem zscoreK_zaddK_self (ks : List (String × Zset)) (k m : String) (sc : Int) :
    zscoreK (zaddK ks k m sc) k m = some sc := by
  unfold zaddK
  cases h : alookup k ks with
  | none =>
    simp only [zscoreK, alookup_aset_self, zscoreL, zaddL, alookup, if_pos rfl,
      if_true]
  | some zs =>
    simp only [zscoreK, alookup_aset_self, zscoreL, zaddL, alookup_aset_self]

theorem zscoreK_zincrbyK_self (ks : List (String × Zset)) (k m : String) (a : Int) :
    zscoreK (zincrbyK ks k m a) k m = some ((zscoreK ks k m).getD 0 + a) := by
  unfold zincrbyK zscoreK
  cases h : alookup k ks with
  | none =>
    simp only [alookup_aset_self, zscoreL, zincrbyL, alookup, if_pos rfl,
      if_true, Option.getD_none, Int.zero_add]
  | some zs =>
    cases h2 : alookup m zs with
    | none =>
      simp only [zscoreL, zincrbyL, h2, alookup_aset_self, Option.getD_none,
        Int.zero_add]
    | some sc =>
      simp only [zscoreL, zincrbyL, h2, alookup_aset_self, Option.getD_some]

theorem alookup_zincrbyK_ne {k' k : String} (h : k ≠ k')
    (ks : List (String × Zset)) (m : String) (a : Int) :
    alookup k' (zincrbyK ks k m a) = alookup k' ks := by
  unfold zincrbyK
  cases hh : alookup k ks with
  | none => exact alookup_aset_ne h _ _
  | some zs => exact alookup_aset_ne h _ _

theorem alookup_zincrbyK_self_of_none {k : String} {ks : List (String × Zset)}
    (h : alookup k ks = none) (m : String) (a : Int) :
    alookup k (zincrbyK ks k m a) = some [(m, a)] := by
  unfold zincrbyK
  rw [h]
  exact alookup_aset_self _ _ _

/-! ### String key disjointness -/

theorem str_append_cancel {s a b : String} (h : s ++ a = s ++ b) : a = b := by
  have hd : (s ++ a).data = (s ++ b).data := by rw [h]
  rw [String.data_append, String.data_append] at hd
  exact String.ext (List.append_cancel_left hd)

theorem str_ne_append {s t : String} (h : t.data ≠ []) : s ≠ s ++ t := by
  intro hc
  have hd : s.data = s.data ++ t.data := by
    conv_lhs => rw [hc]
    exact String.data_append s t
  have hlen := congrArg List.length hd
  rw [List.length_append] at hlen
  have ht : t.data.length = 0 := by omega
  exact h (List.length_eq_zero.mp ht)

theorem hincrbyK_some {ks : List (String × Hash)} {key : String} {B : Hash}
    (h : alookup key ks = some B) (field : String) (a : Int) (B' : Hash)
    (h2 : hincrbyL B field a = some B') :
    hincrbyK ks key field a = some (aset key B' ks) := by
  unfold hincrbyK
  rw [h]
  dsimp only
  rw [h2]

/-! ## Claim C5 — voting is idempotent per user per article

`article_vote` by a user already in the article's `voted:<id>` membership
set leaves the whole store unchanged (the already-voted branch runs only
`pipeline.unwatch()`). -/

/-- C5: for every store, article (present in the `time:` index, as any
article created by `post_article` is) and user already in the article's
voted membership set, a second `article_vote` call by that user returns
the store unchanged — in particular it changes neither the vote counter
nor any score. -/
theorem article_vote_idempotent_per_user (s : VoteStore) (user article : String)
    (now posted : Int)
    (hposted : zscoreK s.zsets "time:" article = some posted)
    (hvoted : sismemberK s.sets ("voted:" ++ afterFirstColon article) user = true) :
    article_vote s user article now = .ok s := by
  unfold article_vote
  rw [hposted]
  simp only [hvoted, if_true]
  split <;> rfl

/-- Witness for C5 on a concrete store: user `u` already voted for
`article:1`. -/
theorem article_vote_idempotent_per_user_witness :
    zscoreK [("time:", [("article:1", (0 : Int))])] "time:" "article:1" = some 0 ∧
    sismemberK [("voted:1", ["u"])] ("voted:" ++ afterFirstColon "article:1") "u"
      = true ∧
    article_vote
      { articleCounter := 1, zsets := [("time:", [("article:1", 0)])],
        sets := [("voted:1", ["u"])], ttls := [], hashes := [] } "u" "article:1" 5
      = .ok { articleCounter := 1, zsets := [("time:", [("article:1", 0)])],
              sets := [("voted:1", ["u"])], ttls := [], hashes := [] } :=
  ⟨by decide, by decide,
    article_vote_idempotent_per_user _ "u" "article:1" 5 0 (by decide) (by decide)⟩

/-! ## Claim C6 — voting after the window is a no-op -/

/-- C6: for every article whose publish time plus `ONE_WEEK_IN_SCORES`
is not in the future, `article_vote` returns the store unchanged: the
`while now < expired` loop is never entered, so counter, scores, and the
voted membership set are all untouched. -/
theorem article_vote_window_elapsed_noop (s : VoteStore) (user article : String)
    (now posted : Int)
    (hposted : zscoreK s.zsets "time:" article = some posted)
    (hlate : posted + ONE_WEEK_IN_SCORES ≤ now) :
    article_vote s user article now = .ok s := by
  have hnot : ¬ now < posted + ONE_WEEK_IN_SCORES := not_lt.mpr hlate
  unfold article_vote
  rw [hposted]
  simp only [if_neg hnot]

/-- Witness for C6 on a concrete store: `article:1` published at time 0,
vote attempted at `now = 0 + ONE_WEEK_IN_SCORES`. -/
theorem article_vote_window_elapsed_noop_witness :
    zscoreK [("time:", [("article:1", (0 : Int))])] "time:" "article:1" = some 0 ∧
    (0 : Int) + ONE_WEEK_IN_SCORES ≤ 604800 ∧
    article_vote
      { articleCounter := 1, zsets := [("time:", [("article:1", 0)])],
        sets := [], ttls := [], hashes := [] } "u" "article:1" 604800
      = .ok { articleCounter := 1, zsets := [("time:", [("article:1", 0)])],
              sets := [], ttls := [], hashes := [] } :=
  ⟨by decide, by decide,
    article_vote_window_elapsed_noop _ "u" "article:1" 604800 0 (by decide)
      (by decide)⟩

/-! ## Claim C10 — `article_vote` presupposes the article in `time:` -/

/-- C10: `article_vote` reads the article's publish time from the
`time:` index and immediately adds `ONE_WEEK_IN_SCORES`; for an article
absent from `time:` that addition is `None + int`, a `TypeError` — the
call fails rather than no-oping.  Under the precondition that the
article was created by `post_article` (which inserts it into `time:`),
the failure branch is unreachable: every such call returns `ok`. -/
theorem article_vote_time_index_presupposed :
    (∀ (s : VoteStore) (user article : String) (now : Int),
      zscoreK s.zsets "time:" article = none →
      article_vote s user article now = .error voteTypeError) ∧
    (∀ (s : VoteStore) (user title link : String) (now : Int)
      (user' : String) (now' : Int),
      isOkE (article_vote (post_article s user title link now).2 user'
        ("article:" ++ (post_article s user title link now).1) now') = true) := by
  constructor
  · intro s user article now h
    unfold article_vote
    rw [h]
  · intro s user title link now user' now'
    simp only [post_article]
    have hz : zscoreK
        (zaddK (zaddK s.zsets "score:" ("article:" ++ toString (s.articleCounter + 1))
          (now + VOTE_SCORE)) "time:" ("article:" ++ toString (s.articleCounter + 1)) now)
        "time:" ("article:" ++ toString (s.articleCounter + 1)) = some now :=
      zscoreK_zaddK_self _ _ _ _
    unfold article_vote
    rw [hz]
    dsimp only
    by_cases hw : now' < now + ONE_WEEK_IN_SCORES
    · rw [if_pos hw]
      by_cases hv : sismemberK
          (saddK s.sets ("voted:" ++ toString (s.articleCounter + 1)) user)
          ("voted:" ++ afterFirstColon ("article:" ++ toString (s.articleCounter + 1)))
          user' = true
      · rw [if_pos hv]
        rfl
      · rw [if_neg hv]
        have h1 : alookup ("article:" ++ toString (s.articleCounter + 1))
            (aset ("article:" ++ toString (s.articleCounter + 1))
              [("title", HVal.str title), ("link", HVal.str link),
               ("poster", HVal.str user), ("time", HVal.int now),
               ("votes", HVal.int 1)] s.hashes)
            = some [("title", HVal.str title), ("link", HVal.str link),
               ("poster", HVal.str user), ("time", HVal.int now),
               ("votes", HVal.int 1)] :=
          alookup_aset_self _ _ _
        rw [hincrbyK_some h1 "votes" 1 _ rfl]
        rfl
    · rw [if_neg hw]
      rfl

/-- Witness for C10: the failure on an empty store, and the success on
an article freshly created by `post_article`. -/
theorem article_vote_time_index_presupposed_witness :
    article_vote (⟨0, [], [], [], []⟩ : VoteStore) "u" "article:99" 0
      = .error voteTypeError ∧
    isOkE (article_vote
      (post_article (⟨0, [], [], [], []⟩ : VoteStore) "u" "t" "l" 0).2 "v"
      ("article:" ++
        (post_article (⟨0, [], [], [], []⟩ : VoteStore) "u" "t" "l" 0).1) 5)
      = true :=
  ⟨article_vote_time_index_presupposed.1 _ "u" "article:99" 0 (by decide),
   article_vote_time_index_presupposed.2 _ "u" "t" "l" 0 "v" 5⟩

/-! ## Claim C1 — the vote's score increment misses the score index
(code bug)

`post_article` ranks articles in the zset `score:` keyed by the member
`article:<id>`, and `get_articles` reads that zset.  The spec (and the
original *Redis in Action* code) say a vote adds `VOTE_SCORE = 432` to
the article's entry there.  The source instead calls
`pipeline.zincrby('score:' + article_id, VOTE_SCORE)`, which under the
redis-py 2.x signature `zincrby(name, value, amount=1)` increments the
member `"432"` of the *unrelated* key `score:<id>` by `1`, and never
touches the article's entry in `score:`. -/

/-- C1 (code-bug evidence, evaluating the code on the spec's own
scenario): publish article A at `now = 0` (so its `score:` entry is
`0 + 432`), then vote once from the new user `other_user` at `now = 10`.
The user is added to the membership set and `votes` becomes 2 as
claimed, but the article's entry in the `score:` index is *unchanged* at
432; the increment instead created member `"432"` with score 1 under the
never-read key `score:1`. -/
theorem article_vote_score_index_bug :
    zscoreK c1AfterPost.zsets "score:" "article:1" = some 432 ∧
    c1AfterVote.map (fun s => sismemberK s.sets "voted:1" "other_user")
      = some true ∧
    c1AfterVote.map (fun s => hgetK s.hashes "article:1" "votes")
      = some (some (HVal.int 2)) ∧
    c1AfterVote.map (fun s => zscoreK s.zsets "score:" "article:1")
      = some (some 432) ∧
    c1AfterVote.map (fun s => zscoreK s.zsets "score:1" "432")
      = some (some 1) := by
  decide

/-! ## Claim C4 — the retry deadline of `article_vote`

The claim says conflicts are retried only while `now` is within a fixed
short budget (a few seconds) from the start of the attempt, as
`log_common`'s `end = time.time() + timeout` is.  `article_vote`'s loop
guard is instead `now < expired` with
`expired = posted + ONE_WEEK_IN_SCORES` — the end of the article's
voting window, up to a week away. -/

/-- C4 counterexample: an article posted at time 0 (window ends at
604800), attempt started at clock 0, the first ten WATCH attempts
invalidated by conflicts, the `k`-th clock read returning `100 * k`.
The code commits at attempt 10, at clock 1000 — 1000 seconds after the
start — instead of dropping the vote once a few-second budget (such as
`log_common`'s 5) had elapsed. -/
theorem article_vote_retry_beyond_budget :
    voteRetryLoop (0 + ONE_WEEK_IN_SCORES) (fun k => 100 * (k : Int))
      (fun k => decide (k < 10)) 20 0 = .committed 10 ∧
    (100 * (10 : Int) > 100 * 0 + 5) := by
  constructor
  · decide
  · decide

/-- C4 as amended: in `article_vote` the read-compute-commit cycle is
retried on conflict as long as `now < expired`, where
`expired = posted + ONE_WEEK_IN_SCORES` is the end of the article's
one-week voting window (not a fixed few-second budget); every retried
attempt, and the committing one, happens at a clock reading inside the
window, and once a clock reading reaches the window's end without a
successful commit the vote is dropped and the function returns. -/
theorem article_vote_retry_window (posted : Int) (clock : Nat → Int)
    (conflict : Nat → Bool) (fuel k j : Nat) :
    (voteRetryLoop (posted + ONE_WEEK_IN_SCORES) clock conflict fuel k
        = .committed j →
      clock j < posted + ONE_WEEK_IN_SCORES ∧
      ∀ i, k ≤ i → i < j →
        conflict i = true ∧ clock i < posted + ONE_WEEK_IN_SCORES) ∧
    (voteRetryLoop (posted + ONE_WEEK_IN_SCORES) clock conflict fuel k
        = .dropped j →
      posted + ONE_WEEK_IN_SCORES ≤ clock j) := by
  induction fuel generalizing k with
  | zero =>
    constructor
    · intro h; exact absurd h (by simp [voteRetryLoop])
    · intro h; exact absurd h (by simp [voteRetryLoop])
  | succ fuel ih =>
    constructor
    · intro h
      rw [voteRetryLoop] at h
      by_cases hc : clock k < posted + ONE_WEEK_IN_SCORES
      · rw [if_pos hc] at h
        by_cases hx : conflict k = true
        · rw [if_pos hx] at h
          rcases (ih (k + 1)).1 h with ⟨hj, hall⟩
          refine ⟨hj, fun i hki hij => ?_⟩
          rcases Nat.eq_or_lt_of_le hki with he | hlt
          · exact he ▸ ⟨hx, hc⟩
          · exact hall i hlt hij
        · rw [if_neg hx] at h
          injection h with h
          subst h
          exact ⟨hc, fun i hki hij => absurd (Nat.lt_of_le_of_lt hki hij)
            (Nat.lt_irrefl _)⟩
      · rw [if_neg hc] at h
        exact absurd h (by simp)
    · intro h
      rw [voteRetryLoop] at h
      by_cases hc : clock k < posted + ONE_WEEK_IN_SCORES
      · rw [if_pos hc] at h
        by_cases hx : conflict k = true
        · rw [if_pos hx] at h
          exact (ih (k + 1)).2 h
        · rw [if_neg hx] at h
          exact absurd h (by simp)
      · rw [if_neg hc] at h
        injection h with h
        subst h
        exact not_lt.mp hc

/-- Witness for C4's amended theorem: a commit after one conflicted
attempt stays inside the window, and a run whose second clock reading
passes the window's end drops the vote there. -/
theorem article_vote_retry_window_witness :
    (100 * (1 : Int) < 0 + ONE_WEEK_IN_SCORES) ∧
    ((0 : Int) + ONE_WEEK_IN_SCORES ≤ 604800 * 1) :=
  ⟨((article_vote_retry_window 0 (fun k => 100 * (k : Int))
      (fun k => decide (k < 1)) 5 0 1).1 (by decide)).1,
   (article_vote_retry_window 0 (fun k => 604800 * (k : Int))
      (fun _ => true) 5 0 1).2 (by decide)⟩

/-! ## Claim C8 — successful optimistic commits act on a fresh snapshot -/

/-- C8: whenever an optimistic attempt (the WATCH/MULTI/EXEC shape of
`article_vote` and `log_common`) commits, no concurrent write touched
the watched key between the read and the commit, so the committed
writes were computed from a snapshot equal to the watched key's value
at commit time — linearizability with respect to the watched key (no
such statement is made for unrelated keys, which the protocol does not
watch). -/
theorem optimistic_commit_fresh_snapshot {α β : Type} (readCompute : α → β)
    (c : WatchedCell α) (ws : List α) (out : β)
    (h : optimistic_attempt readCompute c ws = some out) :
    ws = [] ∧ envWrites c ws = c ∧
    out = readCompute (envWrites c ws).value := by
  have hver : ∀ (ws : List α) (c : WatchedCell α),
      (envWrites c ws).version = c.version + ws.length := by
    intro ws
    induction ws with
    | nil => intro c; simp [envWrites]
    | cons w ws ih =>
      intro c
      rw [envWrites, ih]
      simp only [List.length_cons]
      omega
  unfold optimistic_attempt at h
  by_cases hv : (envWrites c ws).version = c.version
  · have hlen : ws.length = 0 := by
      have := hver ws c
      omega
    have hnil : ws = [] := List.length_eq_zero.mp hlen
    subst hnil
    rw [if_pos hv] at h
    injection h with h
    exact ⟨rfl, rfl, h.symm⟩
  · rw [if_neg hv] at h
    exact absurd h (by simp)

/-- Witness for C8: a committing attempt with no interleaved writes. -/
theorem optimistic_commit_fresh_snapshot_witness :
    ([] : List Nat) = [] ∧
    envWrites (⟨5, 0⟩ : WatchedCell Nat) [] = ⟨5, 0⟩ ∧
    (6 : Nat) = (fun n => n + 1) (envWrites (⟨5, 0⟩ : WatchedCell Nat) []).value :=
  optimistic_commit_fresh_snapshot (fun n => n + 1) ⟨5, 0⟩ [] 6 (by decide)

/-! ## Claim C7 — retiring a row (`delay <= 0`) is permanent -/

theorem cache_rows_step_preserves_retired (s : CacheStore) (now : Int)
    (rowId : String) (s' : CacheStore)
    (hsched : rowId ∉ keysOf s.schedule)
    (hinv : alookup ("inventory:" ++ rowId) s.inventory = none)
    (hstep : cache_rows_step s now = .ok s') :
    rowId ∉ keysOf s'.schedule ∧
    alookup ("inventory:" ++ rowId) s'.inventory = none := by
  unfold cache_rows_step at hstep
  cases hh : (sortBy zentryLe s.schedule).head? with
  | none =>
    rw [hh] at hstep
    injection hstep with hstep
    subst hstep
    exact ⟨hsched, hinv⟩
  | some p =>
    obtain ⟨pid, due⟩ := p
    rw [hh] at hstep
    dsimp only at hstep
    by_cases hdue : now < due
    · rw [if_pos hdue] at hstep
      injection hstep with hstep
      subst hstep
      exact ⟨hsched, hinv⟩
    · rw [if_neg hdue] at hstep
      cases hd : zscoreL s.delay pid with
      | none =>
        rw [hd] at hstep
        exact absurd hstep (by simp)
      | some d =>
        rw [hd] at hstep
        dsimp only at hstep
        have hpmem : pid ∈ keysOf s.schedule := by
          have hm := head?_sortBy_mem hh
          exact List.mem_map_of_mem Prod.fst hm
        have hne : rowId ≠ pid := fun hc => hsched (hc ▸ hpmem)
        by_cases hz : d ≤ 0
        · rw [if_pos hz] at hstep
          injection hstep with hstep
          subst hstep
          constructor
          · intro hmem
            exact hsched (mem_keysOf_aremove.mp hmem).1
          · exact alookup_aremove_none hinv _
        · rw [if_neg hz] at hstep
          injection hstep with hstep
          subst hstep
          constructor
          · intro hmem
            rcases mem_keysOf_aset.mp hmem with he | hm
            · exact hne he
            · exact hsched hm
          · have hkey : "inventory:" ++ pid ≠ "inventory:" ++ rowId := fun hc =>
              hne (str_append_cancel hc).symm
            rw [alookup_aset_ne hkey]
            exact hinv

/-- C7: a due schedule entry whose `delay:` value is `<= 0` is retired by
the observing `cache_rows` cycle — removed from both the schedule index
and the delay map, its cached `inventory:<id>` artifact deleted — and
once a row id is out of the schedule index with its artifact absent, no
number of further cycles ever recreates the artifact (or re-schedules
the row). -/
theorem cache_rows_retire_permanent :
    (∀ (s : CacheStore) (now due d : Int) (rowId : String),
      (sortBy zentryLe s.schedule).head? = some (rowId, due) →
      due ≤ now →
      zscoreL s.delay rowId = some d →
      d ≤ 0 →
      cache_rows_step s now
        = .ok ⟨zremL s.schedule rowId, zremL s.delay rowId,
               aremove ("inventory:" ++ rowId) s.inventory⟩ ∧
      rowId ∉ keysOf (zremL s.schedule rowId) ∧
      rowId ∉ keysOf (zremL s.delay rowId) ∧
      alookup ("inventory:" ++ rowId)
        (aremove ("inventory:" ++ rowId) s.inventory) = none) ∧
    (∀ (nows : List Int) (s s' : CacheStore) (rowId : String),
      rowId ∉ keysOf s.schedule →
      alookup ("inventory:" ++ rowId) s.inventory = none →
      cache_rows_run nows s = .ok s' →
      rowId ∉ keysOf s'.schedule ∧
      alookup ("inventory:" ++ rowId) s'.inventory = none) := by
  constructor
  · intro s now due d rowId hh hdue hd hz
    refine ⟨?_, ?_, ?_, ?_⟩
    · unfold cache_rows_step
      rw [hh]
      dsimp only
      rw [if_neg (not_lt.mpr hdue), hd]
      dsimp only
      rw [if_pos hz]
    · intro hmem
      exact (mem_keysOf_aremove.mp hmem).2 rfl
    · intro hmem
      exact (mem_keysOf_aremove.mp hmem).2 rfl
    · exact alookup_aremove_self _ _
  · intro nows
    induction nows with
    | nil =>
      intro s s' rowId h1 h2 hrun
      unfold cache_rows_run at hrun
      injection hrun with hrun
      subst hrun
      exact ⟨h1, h2⟩
    | cons now nows ih =>
      intro s s' rowId h1 h2 hrun
      unfold cache_rows_run at hrun
      cases hstep : cache_rows_step s now with
      | error e =>
        rw [hstep] at hrun
        exact absurd hrun (by simp)
      | ok s1 =>
        rw [hstep] at hrun
        dsimp only at hrun
        rcases cache_rows_step_preserves_retired s now rowId s1 h1 h2 hstep
          with ⟨h1', h2'⟩
        exact ih s1 s' rowId h1' h2' hrun

/-- Witness for C7: row `r` scheduled as due at time 0 with delay −1 is
retired by the observing cycle, and a later cycle recreates nothing. -/
theorem cache_rows_retire_permanent_witness :
    (cache_rows_step (⟨[("r", 0)], [("r", -1)], [("inventory:r", "x")]⟩ :
        CacheStore) 0
      = .ok ⟨zremL [("r", 0)] "r", zremL [("r", -1)] "r",
             aremove ("inventory:" ++ "r") [("inventory:r", "x")]⟩ ∧
      "r" ∉ keysOf (zremL [("r", 0)] "r") ∧
      "r" ∉ keysOf (zremL [("r", -1)] "r") ∧
      alookup ("inventory:" ++ "r")
        (aremove ("inventory:" ++ "r") [("inventory:r", "x")]) = none) ∧
    ("r" ∉ keysOf (⟨[("q", 8)], [("q", 2)],
        [("inventory:q", invJson "q" 6)]⟩ : CacheStore).schedule ∧
      alookup ("inventory:" ++ "r")
        (⟨[("q", 8)], [("q", 2)],
          [("inventory:q", invJson "q" 6)]⟩ : CacheStore).inventory = none) := by
  constructor
  · exact cache_rows_retire_permanent.1 _ 0 0 (-1) "r" (by decide) (by decide)
      (by decide) (by decide)
  · exact cache_rows_retire_permanent.2 [6] (⟨[("q", 5)], [("q", 2)], []⟩ :
      CacheStore) _ "r" (by decide) (by decide) (by rfl)

/-! ## Claim C9 — `cache_rows` presupposes a `delay:` entry for every
scheduled id -/

/-- C9: a due schedule entry with no `delay:` value drives
`cache_rows` into `delay <= 0` on `None` — the `TypeError` branch; the
invariant "every scheduled id has a delay entry" rules the branch out,
is preserved by every successful cycle, and is established/preserved by
`schedule_row_cache`, which writes both keys. -/
theorem cache_rows_delay_entry_presupposed :
    (∀ (s : CacheStore) (now due : Int) (rowId : String),
      (sortBy zentryLe s.schedule).head? = some (rowId, due) →
      due ≤ now →
      zscoreL s.delay rowId = none →
      cache_rows_step s now = .error cacheTypeError) ∧
    (∀ (s : CacheStore) (now : Int),
      schedCovered s → isOkE (cache_rows_step s now) = true) ∧
    (∀ (s : CacheStore) (now : Int) (s' : CacheStore),
      schedCovered s → cache_rows_step s now = .ok s' → schedCovered s') ∧
    (∀ (s : CacheStore) (rowId : String) (delay now : Int),
      schedCovered s → schedCovered (schedule_row_cache s rowId delay now)) := by
  refine ⟨?_, ?_, ?_, ?_⟩
  · intro s now due rowId hh hdue hd
    unfold cache_rows_step
    rw [hh]
    dsimp only
    rw [if_neg (not_lt.mpr hdue), hd]
  · intro s now hcov
    unfold cache_rows_step
    cases hh : (sortBy zentryLe s.schedule).head? with
    | none => rfl
    | some p =>
      obtain ⟨pid, due⟩ := p
      dsimp only
      by_cases hdue : now < due
      · rw [if_pos hdue]
        rfl
      · rw [if_neg hdue]
        have hpmem : pid ∈ keysOf s.schedule :=
          List.mem_map_of_mem Prod.fst (head?_sortBy_mem hh)
        have hsome := hcov pid hpmem
        cases hd : zscoreL s.delay pid with
        | none => rw [hd] at hsome; exact absurd hsome (by simp)
        | some d =>
          dsimp only
          by_cases hz : d ≤ 0
          · rw [if_pos hz]; rfl
          · rw [if_neg hz]; rfl
  · intro s now s' hcov hstep
    unfold cache_rows_step at hstep
    cases hh : (sortBy zentryLe s.schedule).head? with
    | none =>
      rw [hh] at hstep
      injection hstep with hstep
      subst hstep
      exact hcov
    | some p =>
      obtain ⟨pid, due⟩ := p
      rw [hh] at hstep
      dsimp only at hstep
      by_cases hdue : now < due
      · rw [if_pos hdue] at hstep
        injection hstep with hstep
        subst hstep
        exact hcov
      · rw [if_neg hdue] at hstep
        cases hd : zscoreL s.delay pid with
        | none =>
          rw [hd] at hstep
          exact absurd hstep (by simp)
        | some d =>
          rw [hd] at hstep
          dsimp only at hstep
          by_cases hz : d ≤ 0
          · rw [if_pos hz] at hstep
            injection hstep with hstep
            subst hstep
            intro k hk
            have hk' := mem_keysOf_aremove.mp hk
            have := hcov k hk'.1
            rw [show zscoreL (zremL s.delay pid) k = zscoreL s.delay k from
              alookup_aremove_ne hk'.2 _]
            exact this
          · rw [if_neg hz] at hstep
            injection hstep with hstep
            subst hstep
            intro k hk
            rcases mem_keysOf_aset.mp hk with he | hm
            · subst he
              rw [show zscoreL s.delay k = some d from hd]
              rfl
            · exact hcov k hm
  · intro s rowId delay now hcov k hk
    have hk' : k ∈ keysOf (zaddL s.schedule rowId now) := hk
    have hgoal : (zscoreL (zaddL s.delay rowId delay) k).isSome = true := by
      rcases mem_keysOf_aset.mp hk' with he | hm
      · rw [he]
        rw [show zscoreL (zaddL s.delay rowId delay) rowId = some delay from
          alookup_aset_self _ _ _]
        rfl
      · by_cases he : k = rowId
        · rw [he]
          rw [show zscoreL (zaddL s.delay rowId delay) rowId = some delay from
            alookup_aset_self _ _ _]
          rfl
        · rw [show zscoreL (zaddL s.delay rowId delay) k = zscoreL s.delay k from
            alookup_aset_ne (fun hc => he hc.symm) _ _]
          exact hcov k hm
    exact hgoal

/-- Witness for C9: the error on a schedule entry with no delay value;
the success, preservation and establishment on concrete stores. -/
theorem cache_rows_delay_entry_presupposed_witness :
    cache_rows_step (⟨[("r", 0)], [], []⟩ : CacheStore) 1
      = .error cacheTypeError ∧
    isOkE (cache_rows_step (⟨[("r", 0)], [("r", 3)], []⟩ : CacheStore) 1)
      = true ∧
    schedCovered
      (schedule_row_cache (⟨[], [], []⟩ : CacheStore) "r" 3 0) := by
  refine ⟨?_, ?_, ?_⟩
  · exact cache_rows_delay_entry_presupposed.1 _ 1 0 "r" (by decide)
      (by decide) (by decide)
  · exact cache_rows_delay_entry_presupposed.2.1 _ 1 (by
      intro k hk
      simp only [keysOf, List.map_cons, List.map_nil, List.mem_singleton] at hk
      subst hk
      decide)
  · exact cache_rows_delay_entry_presupposed.2.2.2 (⟨[], [], []⟩ : CacheStore)
      "r" 3 0 (by
      intro k hk
      simp [keysOf] at hk)

/-! ## Claim C3 — hourly counting and rollover of `log_common` -/

theorem log_recent_strings (s : LogStore) (name message severity asc : String) :
    (log_recent s name message severity asc).strings = s.strings := rfl

theorem log_recent_zsets (s : LogStore) (name message severity asc : String) :
    (log_recent s name message severity asc).zsets = s.zsets := rfl

theorem zscoreK_none_of_key {key : String} {ks : List (String × Zset)}
    (h : alookup key ks = none) (m : String) : zscoreK ks key m = none := by
  unfold zscoreK
  rw [h]

/-- First observation: the `:start` marker is absent, so `log_common`
sets it and increments the count. -/
theorem log_common_fresh (s : LogStore) (name message severity asc : String)
    (h : Nat)
    (hstart : alookup (log_destination name severity ++ ":start") s.strings
      = none) :
    log_common s name message severity asc h
      = .ok (log_recent
          { s with
            strings := aset (log_destination name severity ++ ":start") h
              s.strings,
            zsets := zincrbyK s.zsets (log_destination name severity) message 1 }
          name message severity asc) := by
  simp only [log_common]
  rw [hstart]

/-- Same hour: the marker equals the current hour, so `log_common` only
increments the count. -/
theorem log_common_same_hour (s : LogStore) (name message severity asc : String)
    (h : Nat)
    (hstart : alookup (log_destination name severity ++ ":start") s.strings
      = some h) :
    log_common s name message severity asc h
      = .ok (log_recent
          { s with
            zsets := zincrbyK s.zsets (log_destination name severity) message 1 }
          name message severity asc) := by
  simp only [log_common]
  rw [hstart]
  dsimp only
  rw [if_neg (lt_irrefl h)]

/-- Within one hour, `n` further calls add `n` to the message's count
and leave the marker alone. -/
theorem log_common_iter_count (name message severity asc : String) (h : Nat)
    (n : Nat) :
    ∀ (s : LogStore) (k : Int),
    alookup (log_destination name severity ++ ":start") s.strings = some h →
    zscoreK s.zsets (log_destination name severity) message = some k →
    ∃ s', log_common_iter name message severity asc h n s = .ok s' ∧
      alookup (log_destination name severity ++ ":start") s'.strings = some h ∧
      zscoreK s'.zsets (log_destination name severity) message = some (k + n) := by
  induction n with
  | zero =>
    intro s k h1 h2
    refine ⟨s, rfl, h1, ?_⟩
    rw [h2]
    norm_num
  | succ n ih =>
    intro s k h1 h2
    have hstep := log_common_same_hour s name message severity asc h h1
    have h1' : alookup (log_destination name severity ++ ":start")
        (log_recent
          { s with
            zsets := zincrbyK s.zsets (log_destination name severity) message 1 }
          name message severity asc).strings = some h := by
      rw [log_recent_strings]
      exact h1
    have h2' : zscoreK (log_recent
          { s with
            zsets := zincrbyK s.zsets (log_destination name severity) message 1 }
          name message severity asc).zsets (log_destination name severity) message
        = some (k + 1) := by
      rw [log_recent_zsets]
      rw [show ({ s with
            zsets := zincrbyK s.zsets (log_destination name severity) message 1 } :
          LogStore).zsets
        = zincrbyK s.zsets (log_destination name severity) message 1 from rfl]
      rw [zscoreK_zincrbyK_self, h2]
      rfl
    rcases ih _ (k + 1) h1' h2' with ⟨s', hrun, ha, hb⟩
    refine ⟨s', ?_, ha, ?_⟩
    · unfold log_common_iter
      rw [hstep]
      dsimp only
      exact hrun
    · rw [hb]
      congr 1
      push_cast
      ring

/-- C3: starting from a state with no marker and no counts for the
aggregation key, (i) five `log_common` calls for the same message within
one wall-clock hour leave its count in the current bucket at 5; (ii) one
call at hour `h` followed by one at a later hour `h'` archives the first
hour wholesale — the counts structure moves to `:last` still holding the
first increment, the old marker moves to `:pstart`, a fresh `:start`
marker holds `h'` — and the current bucket holds only the second
increment. -/
theorem log_common_hourly_rollover (s : LogStore)
    (name message severity asc : String) (h h' : Nat)
    (hstart : alookup (log_destination name severity ++ ":start") s.strings
      = none)
    (hdest : alookup (log_destination name severity) s.zsets = none)
    (hlt : h < h') :
    logCountsAfter s name message severity asc h 5 = some (some 5) ∧
    logRolloverView s name message severity asc h h'
      = some (some [(message, 1)], some h, some h', some [(message, 1)]) := by
  have hfresh := log_common_fresh s name message severity asc h hstart
  have h1 : alookup (log_destination name severity ++ ":start")
      (log_recent
        { s with
          strings := aset (log_destination name severity ++ ":start") h s.strings,
          zsets := zincrbyK s.zsets (log_destination name severity) message 1 }
        name message severity asc).strings = some h := by
    rw [log_recent_strings]
    exact alookup_aset_self _ _ _
  have h2 : zscoreK (log_recent
        { s with
          strings := aset (log_destination name severity ++ ":start") h s.strings,
          zsets := zincrbyK s.zsets (log_destination name severity) message 1 }
        name message severity asc).zsets (log_destination name severity) message
      = some 1 := by
    rw [log_recent_zsets]
    rw [show ({ s with
          strings := aset (log_destination name severity ++ ":start") h s.strings,
          zsets := zincrbyK s.zsets (log_destination name severity) message 1 } :
        LogStore).zsets
      = zincrbyK s.zsets (log_destination name severity) message 1 from rfl]
    rw [zscoreK_zincrbyK_self, zscoreK_none_of_key hdest]
    rfl
  constructor
  · rcases log_common_iter_count name message severity asc h 4 _ 1 h1 h2
      with ⟨s5, hrun, _, hsc⟩
    have hiter : log_common_iter name message severity asc h 5 s = .ok s5 := by
      unfold log_common_iter
      rw [hfresh]
      dsimp only
      exact hrun
    unfold logCountsAfter
    rw [hiter]
    dsimp only
    rw [hsc]
    norm_num
  · -- the second call, at the later hour h'
    have hlast : log_destination name severity
        ≠ log_destination name severity ++ ":last" :=
      str_ne_append (by decide)
    have hstartne : log_destination name severity
        ≠ log_destination name severity ++ ":start" :=
      str_ne_append (by decide)
    have hps : log_destination name severity ++ ":start"
        ≠ log_destination name severity ++ ":pstart" := by
      intro hc
      have := str_append_cancel hc
      exact absurd this (by decide)
    -- the zset holding the first hour's counts
    have hcounts : alookup (log_destination name severity)
        (log_recent
          { s with
            strings := aset (log_destination name severity ++ ":start") h s.strings,
            zsets := zincrbyK s.zsets (log_destination name severity) message 1 }
          name message severity asc).zsets = some [(message, 1)] := by
      rw [log_recent_zsets]
      exact alookup_zincrbyK_self_of_none hdest message 1
    have hsecond : log_common
        (log_recent
          { s with
            strings := aset (log_destination name severity ++ ":start") h s.strings,
            zsets := zincrbyK s.zsets (log_destination name severity) message 1 }
          name message severity asc) name message severity asc h'
        = .ok (log_recent
            { (log_recent
                { s with
                  strings := aset (log_destination name severity ++ ":start") h
                    s.strings,
                  zsets := zincrbyK s.zsets (log_destination name severity)
                    message 1 }
                name message severity asc) with
              strings := aset (log_destination name severity ++ ":start") h'
                (aset (log_destination name severity ++ ":pstart") h
                  (aremove (log_destination name severity ++ ":start")
                    (log_recent
                      { s with
                        strings := aset
                          (log_destination name severity ++ ":start") h s.strings,
                        zsets := zincrbyK s.zsets
                          (log_destination name severity) message 1 }
                      name message severity asc).strings)),
              zsets := zincrbyK
                (aset (log_destination name severity ++ ":last") [(message, 1)]
                  (aremove (log_destination name severity)
                    (log_recent
                      { s with
                        strings := aset
                          (log_destination name severity ++ ":start") h s.strings,
                        zsets := zincrbyK s.zsets
                          (log_destination name severity) message 1 }
                      name message severity asc).zsets))
                (log_destination name severity) message 1 }
            name message severity asc) := by
      simp only [log_common]
      rw [h1]
      dsimp only
      rw [if_pos hlt, hcounts]
    unfold logRolloverView
    rw [hfresh]
    dsimp only
    rw [hsecond]
    dsimp only
    rw [log_recent_zsets, log_recent_strings]
    dsimp only
    rw [alookup_zincrbyK_ne hlast _ message 1]
    rw [alookup_aset_self]
    have hnone4 : alookup (log_destination name severity)
        (aset (log_destination name severity ++ ":last") [(message, 1)]
          (aremove (log_destination name severity)
            (log_recent
              { s with
                strings := aset (log_destination name severity ++ ":start") h
                  s.strings,
                zsets := zincrbyK s.zsets (log_destination name severity)
                  message 1 }
              name message severity asc).zsets)) = none := by
      rw [alookup_aset_ne (Ne.symm hlast)]
      exact alookup_aremove_self _ _
    rw [alookup_zincrbyK_self_of_none hnone4 message 1]
    rw [log_recent_strings]
    rw [alookup_aset_ne hps]
    rw [alookup_aset_self]
    rw [alookup_aset_self]

/-- Witness for C3 on the empty store, aggregation key `test`/`info`,
message `m`, hours 1 and 2. -/
theorem log_common_hourly_rollover_witness :
    logCountsAfter (⟨[], [], []⟩ : LogStore) "test" "m" "info" "t" 1 5
      = some (some 5) ∧
    logRolloverView (⟨[], [], []⟩ : LogStore) "test" "m" "info" "t" 1 2
      = some (some [("m", 1)], some 1, some 2, some [("m", 1)]) :=
  log_common_hourly_rollover _ "test" "m" "info" "t" 1 2 (by decide) (by decide)
    (by decide)

/-! ## Claim C2 — the session reapers trim to the limit and cascade
deletion -/

theorem keysOf_nodup_aremove {k : String} {l : List (String × α)}
    (h : (keysOf l).Nodup) : (keysOf (aremove k l)).Nodup :=
  ((aremove_sublist k l).map Prod.fst).nodup h

theorem cleanTokens_subset (limit : Nat) (s : SessionStore) :
    ∀ t ∈ cleanTokens limit s, t ∈ keysOf s.recent := by
  intro t ht
  unfold cleanTokens zrangeLow keysOf at ht
  have hsub : ((sortBy zentryLe s.recent).take
        (min (s.recent.length - limit) 100)).Sublist (sortBy zentryLe s.recent) :=
    List.take_sublist _ _
  have hm := (hsub.map Prod.fst).subset ht
  exact ((sortBy_perm zentryLe s.recent).map Prod.fst).mem_iff.mp hm

theorem cleanTokens_nodup (limit : Nat) (s : SessionStore)
    (hWF : (keysOf s.recent).Nodup) : (cleanTokens limit s).Nodup := by
  have hperm := (sortBy_perm zentryLe s.recent).map Prod.fst
  have hnd : (List.map Prod.fst (sortBy zentryLe s.recent)).Nodup :=
    hperm.nodup_iff.mpr hWF
  have hsub := (List.take_sublist (min (s.recent.length - limit) 100)
    (sortBy zentryLe s.recent)).map Prod.fst
  exact hsub.nodup hnd

theorem cleanTokens_length (limit : Nat) (s : SessionStore) :
    (cleanTokens limit s).length = min (s.recent.length - limit) 100 := by
  unfold cleanTokens zrangeLow keysOf
  rw [List.length_map, List.length_take,
    (sortBy_perm zentryLe s.recent).length_eq]
  omega

theorem alookup_foldl_aremove_none {α : Type} (f : String → String)
    (tokens : List String) :
    ∀ (l : List (String × α)) (k : String), alookup k l = none →
    alookup k (tokens.foldl (fun acc x => aremove (f x) acc) l) = none := by
  induction tokens with
  | nil =>
    intro l k h
    exact h
  | cons t ts ih =>
    intro l k h
    rw [List.foldl_cons]
    exact ih _ k (alookup_aremove_none h (f t))

theorem alookup_foldl_aremove_mem {α : Type} (f : String → String)
    (tokens : List String) :
    ∀ (l : List (String × α)) (t : String), t ∈ tokens →
    alookup (f t) (tokens.foldl (fun acc x => aremove (f x) acc) l) = none := by
  induction tokens with
  | nil =>
    intro l t h
    exact absurd h (List.not_mem_nil t)
  | cons x ts ih =>
    intro l t h
    rw [List.foldl_cons]
    rcases List.mem_cons.mp h with he | hm
    · subst he
      exact alookup_foldl_aremove_none f ts _ _ (alookup_aremove_self (f t) l)
    · exact ih _ t hm

theorem length_foldl_zremL (tokens : List String) :
    ∀ zs : Zset, (keysOf zs).Nodup → tokens.Nodup →
    (∀ t ∈ tokens, t ∈ keysOf zs) →
    (tokens.foldl zremL zs).length + tokens.length = zs.length := by
  induction tokens with
  | nil =>
    intro zs _ _ _
    simp
  | cons t ts ih =>
    intro zs hnd htd hsub
    rw [List.foldl_cons]
    have htmem : t ∈ keysOf zs := hsub t (List.mem_cons_self t ts)
    have hts := List.nodup_cons.mp htd
    have hsub' : ∀ u ∈ ts, u ∈ keysOf (zremL zs t) := by
      intro u hu
      have hne : u ≠ t := fun hc => hts.1 (hc ▸ hu)
      exact mem_keysOf_aremove.mpr ⟨hsub u (List.mem_cons_of_mem t hu), hne⟩
    have hrec := ih (zremL zs t) (keysOf_nodup_aremove hnd) hts.2 hsub'
    have hlen : (zremL zs t).length + 1 = zs.length :=
      length_aremove_of_mem hnd htmem
    simp only [List.length_cons]
    omega

theorem keysOf_nodup_foldl_zremL (tokens : List String) :
    ∀ zs : Zset, (keysOf zs).Nodup → (keysOf (tokens.foldl zremL zs)).Nodup := by
  induction tokens with
  | nil =>
    intro zs h
    exact h
  | cons t ts ih =>
    intro zs h
    rw [List.foldl_cons]
    exact ih _ (keysOf_nodup_aremove h)

theorem clean_body_recent_length (limit : Nat) (s : SessionStore)
    (hWF : (keysOf s.recent).Nodup) :
    ((cleanTokens limit s).foldl zremL s.recent).length
      + min (s.recent.length - limit) 100 = s.recent.length := by
  have := length_foldl_zremL (cleanTokens limit s) s.recent hWF
    (cleanTokens_nodup limit s hWF) (cleanTokens_subset limit s)
  rw [cleanTokens_length limit s] at this
  exact this

theorem clean_sessions_run_card (limit : Nat) :
    ∀ (fuel : Nat) (s : SessionStore), (keysOf s.recent).Nodup →
    s.recent.length ≤ limit + fuel →
    (clean_sessions_run limit fuel s).1.recent.length ≤ limit := by
  intro fuel
  induction fuel with
  | zero =>
    intro s _ hle
    unfold clean_sessions_run
    dsimp only
    omega
  | succ fuel ih =>
    intro s hWF hle
    unfold clean_sessions_run
    by_cases hq : s.recent.length ≤ limit
    · rw [if_pos hq]
      exact hq
    · rw [if_neg hq]
      dsimp only
      have hlen := clean_body_recent_length limit s hWF
      have hWF' : (keysOf (clean_sessions_body limit s).recent).Nodup :=
        keysOf_nodup_foldl_zremL (cleanTokens limit s) s.recent hWF
      have hle' : (clean_sessions_body limit s).recent.length ≤ limit + fuel := by
        have h1 : (clean_sessions_body limit s).recent.length
            + min (s.recent.length - limit) 100 = s.recent.length := hlen
        omega
      exact ih (clean_sessions_body limit s) hWF' hle'

theorem clean_sessions_run_none (limit : Nat) :
    ∀ (fuel : Nat) (s : SessionStore) (kl kv : String),
    alookup kl s.login = none → alookup kv s.viewed = none →
    alookup kl (clean_sessions_run limit fuel s).1.login = none ∧
    alookup kv (clean_sessions_run limit fuel s).1.viewed = none := by
  intro fuel
  induction fuel with
  | zero =>
    intro s kl kv h1 h2
    exact ⟨h1, h2⟩
  | succ fuel ih =>
    intro s kl kv h1 h2
    unfold clean_sessions_run
    by_cases hq : s.recent.length ≤ limit
    · rw [if_pos hq]
      exact ⟨h1, h2⟩
    · rw [if_neg hq]
      dsimp only
      refine ih (clean_sessions_body limit s) kl kv ?_ ?_
      · exact alookup_foldl_aremove_none (fun x => x) (cleanTokens limit s)
          s.login kl h1
      · exact alookup_foldl_aremove_none (fun x => "viewed:" ++ x)
          (cleanTokens limit s) s.viewed kv h2

theorem clean_sessions_run_evicted (limit : Nat) :
    ∀ (fuel : Nat) (s : SessionStore) (t : String),
    t ∈ (clean_sessions_run limit fuel s).2 →
    alookup t (clean_sessions_run limit fuel s).1.login = none ∧
    alookup ("viewed:" ++ t) (clean_sessions_run limit fuel s).1.viewed = none := by
  intro fuel
  induction fuel with
  | zero =>
    intro s t ht
    exact absurd ht (List.not_mem_nil t)
  | succ fuel ih =>
    intro s t ht
    unfold clean_sessions_run at ht ⊢
    by_cases hq : s.recent.length ≤ limit
    · rw [if_pos hq] at ht
      exact absurd ht (List.not_mem_nil t)
    · rw [if_neg hq] at ht ⊢
      dsimp only at ht ⊢
      rcases List.mem_append.mp ht with hmem | hmem
      · refine clean_sessions_run_none limit fuel (clean_sessions_body limit s)
          t ("viewed:" ++ t) ?_ ?_
        · exact alookup_foldl_aremove_mem (fun x => x) (cleanTokens limit s)
            s.login t hmem
        · exact alookup_foldl_aremove_mem (fun x => "viewed:" ++ x)
            (cleanTokens limit s) s.viewed t hmem
      · exact ih (clean_sessions_body limit s) t hmem

theorem clean_full_session_run_card (limit : Nat) :
    ∀ (fuel : Nat) (s : SessionStore), (keysOf s.recent).Nodup →
    s.recent.length ≤ limit + fuel →
    (clean_full_session_run limit fuel s).1.recent.length ≤ limit := by
  intro fuel
  induction fuel with
  | zero =>
    intro s _ hle
    unfold clean_full_session_run
    dsimp only
    omega
  | succ fuel ih =>
    intro s hWF hle
    unfold clean_full_session_run
    by_cases hq : s.recent.length ≤ limit
    · rw [if_pos hq]
      exact hq
    · rw [if_neg hq]
      dsimp only
      have hlen := clean_body_recent_length limit s hWF
      have hWF' : (keysOf (clean_full_session_body limit s).recent).Nodup :=
        keysOf_nodup_foldl_zremL (cleanTokens limit s) s.recent hWF
      have hle' : (clean_full_session_body limit s).recent.length
          ≤ limit + fuel := by
        have h1 : (clean_full_session_body limit s).recent.length
            + min (s.recent.length - limit) 100 = s.recent.length := hlen
        omega
      exact ih (clean_full_session_body limit s) hWF' hle'

theorem clean_full_session_run_none (limit : Nat) :
    ∀ (fuel : Nat) (s : SessionStore) (kl kv kc : String),
    alookup kl s.login = none → alookup kv s.viewed = none →
    alookup kc s.cart = none →
    alookup kl (clean_full_session_run limit fuel s).1.login = none ∧
    alookup kv (clean_full_session_run limit fuel s).1.viewed = none ∧
    alookup kc (clean_full_session_run limit fuel s).1.cart = none := by
  intro fuel
  induction fuel with
  | zero =>
    intro s kl kv kc h1 h2 h3
    exact ⟨h1, h2, h3⟩
  | succ fuel ih =>
    intro s kl kv kc h1 h2 h3
    unfold clean_full_session_run
    by_cases hq : s.recent.length ≤ limit
    · rw [if_pos hq]
      exact ⟨h1, h2, h3⟩
    · rw [if_neg hq]
      dsimp only
      refine ih (clean_full_session_body limit s) kl kv kc ?_ ?_ ?_
      · exact alookup_foldl_aremove_none (fun x => x) (cleanTokens limit s)
          s.login kl h1
      · exact alookup_foldl_aremove_none (fun x => "viewed:" ++ x)
          (cleanTokens limit s) s.viewed kv h2
      · exact alookup_foldl_aremove_none (fun x => "cart:" ++ x)
          (cleanTokens limit s) s.cart kc h3

theorem clean_full_session_run_evicted (limit : Nat) :
    ∀ (fuel : Nat) (s : SessionStore) (t : String),
    t ∈ (clean_full_session_run limit fuel s).2 →
    alookup t (clean_full_session_run limit fuel s).1.login = none ∧
    alookup ("viewed:" ++ t)
      (clean_full_session_run limit fuel s).1.viewed = none ∧
    alookup ("cart:" ++ t) (clean_full_session_run limit fuel s).1.cart = none := by
  intro fuel
  induction fuel with
  | zero =>
    intro s t ht
    exact absurd ht (List.not_mem_nil t)
  | succ fuel ih =>
    intro s t ht
    unfold clean_full_session_run at ht ⊢
    by_cases hq : s.recent.length ≤ limit
    · rw [if_pos hq] at ht
      exact absurd ht (List.not_mem_nil t)
    · rw [if_neg hq] at ht ⊢
      dsimp only at ht ⊢
      rcases List.mem_append.mp ht with hmem | hmem
      · refine clean_full_session_run_none limit fuel
          (clean_full_session_body limit s) t ("viewed:" ++ t) ("cart:" ++ t)
          ?_ ?_ ?_
        · exact alookup_foldl_aremove_mem (fun x => x) (cleanTokens limit s)
            s.login t hmem
        · exact alookup_foldl_aremove_mem (fun x => "viewed:" ++ x)
            (cleanTokens limit s) s.viewed t hmem
        · exact alookup_foldl_aremove_mem (fun x => "cart:" ++ x)
            (cleanTokens limit s) s.cart t hmem
      · exact ih (clean_full_session_body limit s) t hmem

/-- C2: for every initial state of the recency index (well-formed: one
entry per token) and every limit, running the eviction reaper with as
many iterations as there are tokens reaches quiescence with the recency
index's cardinality at most the limit; and every token the run evicted
has its dependent records absent at the end — its `login:` hash entry
and its `viewed:<token>` key for `clean_sessions`, plus its
`cart:<token>` hash for the `clean_full_session` variant. -/
theorem session_reaper_quiescence :
    (∀ (limit : Nat) (s : SessionStore), zsetWF s.recent →
      (clean_sessions_run limit s.recent.length s).1.recent.length ≤ limit) ∧
    (∀ (limit : Nat) (s : SessionStore) (t : String),
      t ∈ (clean_sessions_run limit s.recent.length s).2 →
      alookup t (clean_sessions_run limit s.recent.length s).1.login = none ∧
      alookup ("viewed:" ++ t)
        (clean_sessions_run limit s.recent.length s).1.viewed = none) ∧
    (∀ (limit : Nat) (s : SessionStore), zsetWF s.recent →
      (clean_full_session_run limit s.recent.length s).1.recent.length ≤ limit) ∧
    (∀ (limit : Nat) (s : SessionStore) (t : String),
      t ∈ (clean_full_session_run limit s.recent.length s).2 →
      alookup t (clean_full_session_run limit s.recent.length s).1.login = none ∧
      alookup ("viewed:" ++ t)
        (clean_full_session_run limit s.recent.length s).1.viewed = none ∧
      alookup ("cart:" ++ t)
        (clean_full_session_run limit s.recent.length s).1.cart = none) := by
  refine ⟨?_, ?_, ?_, ?_⟩
  · intro limit s hWF
    exact clean_sessions_run_card limit s.recent.length s hWF
      (Nat.le_add_left _ _)
  · intro limit s t ht
    exact clean_sessions_run_evicted limit s.recent.length s t ht
  · intro limit s hWF
    exact clean_full_session_run_card limit s.recent.length s hWF
      (Nat.le_add_left _ _)
  · intro limit s t ht
    exact clean_full_session_run_evicted limit s.recent.length s t ht

/-- Witness for C2: a one-token store with `limit = 0`; the token `a` is
evicted and all its dependent records are gone, in both variants. -/
theorem session_reaper_quiescence_witness :
    (clean_sessions_run 0 c2Store.recent.length c2Store).1.recent.length ≤ 0 ∧
    alookup "a" (clean_sessions_run 0 c2Store.recent.length c2Store).1.login
      = none ∧
    alookup ("viewed:" ++ "a")
      (clean_sessions_run 0 c2Store.recent.length c2Store).1.viewed = none ∧
    (clean_full_session_run 0 c2Store.recent.length c2Store).1.recent.length
      ≤ 0 ∧
    alookup "a"
      (clean_full_session_run 0 c2Store.recent.length c2Store).1.login = none ∧
    alookup ("viewed:" ++ "a")
      (clean_full_session_run 0 c2Store.recent.length c2Store).1.viewed = none ∧
    alookup ("cart:" ++ "a")
      (clean_full_session_run 0 c2Store.recent.length c2Store).1.cart = none :=
  ⟨session_reaper_quiescence.1 0 c2Store (by unfold zsetWF; decide),
   (session_reaper_quiescence.2.1 0 c2Store "a" (by decide)).1,
   (session_reaper_quiescence.2.1 0 c2Store "a" (by decide)).2,
   session_reaper_quiescence.2.2.1 0 c2Store (by unfold zsetWF; decide),
   (session_reaper_quiescence.2.2.2 0 c2Store "a" (by decide)).1,
   (session_reaper_quiescence.2.2.2 0 c2Store "a" (by decide)).2.1,
   (session_reaper_quiescence.2.2.2 0 c2Store "a" (by decide)).2.2⟩

end RedisAction
